import Mathlib

/-!
# Verification of the bank-statement import pipeline

Shallow embedding of the import subsystem of the `controle-financeiro`
repository: the row normalizer (`handleMapping` in
`src/app/(dashboard)/import/ImportClient.tsx` and its duplicate in the
unnamed UI variant), the fingerprint (`generateExternalId` in
`src/utils/importUtils.ts`), the column-mapping inferencer
(`detectColumnMapping` in `src/lib/services/import-service.ts`), the
bulk import (`bulkCreateTransactions` in the imports DAL) and the commit
coordinator (`confirmImport` in `src/actions/imports.ts`).

Modelling conventions:
* A JavaScript `Date` is its UTC timestamp in integer milliseconds
  (`Int`).  The host timezone enters as an explicit parameter
  `tz : Int`, the offset in milliseconds such that
  `localMs = utcMs + tz` (so Brazil, UTC-3, is `tz = -10800000`).
* JavaScript numbers are modelled as `ℚ`; the normalizer's arithmetic on
  the values of interest (date serials, parsed amounts) is exact in `ℚ`.
* The environment's generic date parser (`new Date(string)` on a string
  that is not split into three parts) is implementation-defined in
  JavaScript; it is passed in as a parameter `genParse : String → Option Int`.
* Fallible computations return `Option`; `none` models `NaN` dates and
  amounts.
-/

namespace ImportPipeline

/-! ## Calendar arithmetic (proleptic Gregorian, Howard Hinnant's algorithms)

`daysFromCivil`/`civilFromDays` convert between `(year, month, day)` and
days since the Unix epoch 1970-01-01.  `daysFromCivil` is linear in the
day argument, so it also models JavaScript's day-of-month rollover
(`new Date(2026, 1, 2001)` is civil day `daysFromCivil 2026 2 2001`). -/

def daysFromCivil (y m d : Int) : Int :=
  let y' : Int := if m ≤ 2 then y - 1 else y
  let era : Int := y'.ediv 400
  let yoe : Int := y' - era * 400
  let mp : Int := (m + 9).emod 12
  let doy : Int := (153 * mp + 2).ediv 5 + d - 1
  let doe : Int := yoe * 365 + yoe.ediv 4 - yoe.ediv 100 + doy
  era * 146097 + doe - 719468

def civilFromDays (z : Int) : Int × Int × Int :=
  let z' : Int := z + 719468
  let era : Int := z'.ediv 146097
  let doe : Int := z' - era * 146097
  let yoe : Int := (doe - doe.ediv 1460 + doe.ediv 36524 - doe.ediv 146096).ediv 365
  let y : Int := yoe + era * 400
  let doy : Int := doe - (365 * yoe + yoe.ediv 4 - yoe.ediv 100)
  let mp : Int := (5 * doy + 2).ediv 153
  let d : Int := doy - (153 * mp + 2).ediv 5 + 1
  let m : Int := mp + (if mp < 10 then 3 else -9)
  (y + (if m ≤ 2 then 1 else 0), m, d)

def msPerDay : Int := 86400000

def msPerHour : Int := 3600000

/-- JavaScript month-index rollover: `new Date(y, m0, d)` first normalizes
the 0-based month into `0..11` shifting the year, then lets the day roll
over through `daysFromCivil`'s linearity in `d`.  Result is in days since
the Unix epoch (interpreted in local time by the callers). -/
def jsLocalDays (y m0 d : Int) : Int :=
  daysFromCivil ((y * 12 + m0).ediv 12) ((y * 12 + m0).emod 12 + 1) d

/-- `new Date(year, monthIndex, day, hours, 0, 0)` as a UTC millisecond
timestamp.  JavaScript maps a year argument in `0..99` to `1900+year`. -/
def jsMakeDate (tz y m0 d hours : Int) : Int :=
  jsLocalDays (if 0 ≤ y ∧ y ≤ 99 then y + 1900 else y) m0 d * msPerDay +
    hours * msPerHour - tz

/-- `date.setHours(12, 0, 0, 0)`: keep the local calendar day, set the
local time-of-day to noon. -/
def jsSetHoursNoon (tz ms : Int) : Int :=
  ms + tz - (ms + tz).emod msPerDay + 12 * msPerHour - tz

/-- The local calendar date `(year, month, day)` of a timestamp. -/
def localCivil (tz ms : Int) : Int × Int × Int :=
  civilFromDays ((ms + tz).ediv msPerDay)

/-- The local time-of-day of a timestamp, in ms since local midnight. -/
def localTimeOfDay (tz ms : Int) : Int :=
  (ms + tz).emod msPerDay

/-- The UTC time-of-day of a timestamp, in ms since UTC midnight. -/
def utcTimeOfDay (ms : Int) : Int :=
  ms.emod msPerDay

/-- Truncation toward zero, as in ECMAScript's `ToIntegerOrInfinity`
(used when a fractional millisecond count reaches a `Date`). -/
def jsTrunc (q : ℚ) : Int :=
  q.num.tdiv (q.den : Int)

example : daysFromCivil 1970 1 1 = 0 := by decide
example : civilFromDays 0 = (1970, 1, 1) := by decide
example : civilFromDays (daysFromCivil 2026 1 31) = (2026, 1, 31) := by decide

/-! ## String utilities mirroring the JavaScript primitives used by the code

All of them work on `List Char` internally so that the proofs can proceed
by structural induction.  JavaScript's `\s` and `trim` also cover a few
exotic Unicode spaces; the ASCII whitespace treated by `Char.isWhitespace`
is what the import pipeline's inputs exercise. -/

def jsWs (c : Char) : Bool := c.isWhitespace

/-- `String.prototype.trim`. -/
def jsTrim (s : String) : String :=
  String.mk (((s.toList.dropWhile jsWs).reverse.dropWhile jsWs).reverse)

/-- `s === ''`, via the character list so that it kernel-reduces. -/
def strIsEmpty (s : String) : Bool := s.toList.isEmpty

/-- `String.prototype.toLowerCase`, via the character list so that it
kernel-reduces (`Char.toLower` lowercases the ASCII range, which covers
every keyword and example the claims exercise). -/
def strToLower (s : String) : String := String.mk (s.toList.map Char.toLower)

def charsStartWith : List Char → List Char → Bool
  | [], _ => true
  | _ :: _, [] => false
  | a :: as, b :: bs => a == b && charsStartWith as bs

def charsContain (needle : List Char) : List Char → Bool
  | [] => needle.isEmpty
  | c :: rest => charsStartWith needle (c :: rest) || charsContain needle rest

/-- `String.prototype.includes` (substring containment). -/
def jsIncludes (s sub : String) : Bool :=
  charsContain sub.toList s.toList

/-- `String.prototype.lastIndexOf` for a single character, `-1` if absent. -/
def lastIndexOfChar (c : Char) (s : String) : Int :=
  (s.toList.foldl (fun (st : Int × Int) x =>
    (st.1 + 1, if x == c then st.1 else st.2)) (0, -1)).2

/-- `str.replace(/c/g, '')`. -/
def strRemoveAll (c : Char) (s : String) : String :=
  String.mk (s.toList.filter (fun x => x != c))

/-- `str.replace(/c/g, r)` for a single target character. -/
def strReplaceAllChar (c r : Char) (s : String) : String :=
  String.mk (s.toList.map (fun x => if x == c then r else x))

def replaceFirstChar (c r : Char) : List Char → List Char
  | [] => []
  | x :: xs => if x == c then r :: xs else x :: replaceFirstChar c r xs

/-- `str.replace(c, r)` with a string pattern: JavaScript replaces only the
first occurrence. -/
def strReplaceFirst (c r : Char) (s : String) : String :=
  String.mk (replaceFirstChar c r s.toList)

def countChar (c : Char) (s : String) : Nat :=
  s.toList.count c

/-- `str.split(sep)` on a one-character separator: keeps empty fields,
`"".split(sep) = [""]`. -/
def splitCharList (c : Char) : List Char → List (List Char)
  | [] => [[]]
  | x :: xs =>
    if x == c then [] :: splitCharList c xs
    else
      match splitCharList c xs with
      | h :: t => (x :: h) :: t
      | [] => [[x]]

def strSplitChar (c : Char) (s : String) : List String :=
  (splitCharList c s.toList).map String.mk

/-- `str.split(re)` for a character-class regex without `+`: a split point
at every matching character, keeping empty fields. -/
def splitAnyList (p : Char → Bool) : List Char → List (List Char)
  | [] => [[]]
  | x :: xs =>
    if p x then [] :: splitAnyList p xs
    else
      match splitAnyList p xs with
      | h :: t => (x :: h) :: t
      | [] => [[x]]

def strSplitAny (p : Char → Bool) (s : String) : List String :=
  (splitAnyList p s.toList).map String.mk

example : strSplitChar ',' "10," = ["10", ""] := by decide
example : strSplitChar ',' "" = [""] := by decide
example : strSplitAny (fun c => c == '/') "a//b" = ["a", "", "b"] := by decide

/-! ## JavaScript number parsing -/

def digitsToNat (l : List Char) : Nat :=
  l.foldl (fun n c => n * 10 + (c.toNat - '0'.toNat)) 0

/-- `parseInt(s)` (radix 10): skip leading whitespace, optional sign,
longest digit run; `NaN` (= `none`) without any digit. -/
def jsParseInt (s : String) : Option Int :=
  let l := s.toList.dropWhile jsWs
  let (sign, l') : Int × List Char :=
    match l with
    | '-' :: rest => (-1, rest)
    | '+' :: rest => (1, rest)
    | _ => (1, l)
  let ds := l'.takeWhile Char.isDigit
  if ds.isEmpty then none else some (sign * (digitsToNat ds : Int))

/-- A decimal exponent suffix `e`/`E` with optional sign, as accepted by
`parseFloat`; yields 0 when no digits follow (the parse then stops before
the `e`, which does not change the value). -/
def parseExpSuffix (l : List Char) : Int :=
  match l with
  | e :: rest =>
    if e == 'e' || e == 'E' then
      let (sign, rest') : Int × List Char :=
        match rest with
        | '-' :: r => (-1, r)
        | '+' :: r => (1, r)
        | _ => (1, rest)
      let ds := rest'.takeWhile Char.isDigit
      if ds.isEmpty then 0 else sign * (digitsToNat ds : Int)
    else 0
  | [] => 0

/-- The optional leading sign of a numeric literal: the sign factor and
the remaining characters. -/
def signSplit (l : List Char) : Int × List Char :=
  match l with
  | '-' :: rest => (-1, rest)
  | '+' :: rest => (1, rest)
  | _ => (1, l)

/-- The optional `.` plus fraction-digit run after the integer digits:
the fraction digits and the remaining characters. -/
def fracSplit (l2 : List Char) : List Char × List Char :=
  match l2 with
  | '.' :: rest => (rest.takeWhile Char.isDigit, rest.drop (rest.takeWhile Char.isDigit).length)
  | _ => ([], l2)

/-- The digit part of `parseFloat` after sign handling: integer digits,
optional fraction, optional exponent; `NaN` (= `none`) unless at least one
digit was read.

The value `sign · (I.F) · 10^e` is assembled as one `mkRat` from integer
arithmetic, which is what keeps all downstream computations kernel-reducible. -/
def parseBody (sign : Int) (l1 : List Char) : Option ℚ :=
  let intDs := l1.takeWhile Char.isDigit
  let fracDs := (fracSplit (l1.drop intDs.length)).1
  let l3 := (fracSplit (l1.drop intDs.length)).2
  if intDs.isEmpty && fracDs.isEmpty then none
  else
    let mantNum : Int := sign * ((digitsToNat intDs : Int) * (10 ^ fracDs.length : Nat) + (digitsToNat fracDs : Int))
    let e := parseExpSuffix l3
    if 0 ≤ e then
      some (mkRat (mantNum * (10 ^ e.toNat : Nat)) (10 ^ fracDs.length))
    else
      some (mkRat mantNum (10 ^ fracDs.length * 10 ^ (-e).toNat))

/-- `parseFloat(s)`: skip leading whitespace, optional sign, then the
digit part.  (The `Infinity` literal, never produced by the pipeline's
inputs, is not modelled.) -/
def jsParseFloat (s : String) : Option ℚ :=
  parseBody (signSplit (s.toList.dropWhile jsWs)).1 (signSplit (s.toList.dropWhile jsWs)).2

/-- `q < 0`, computed on the canonical representation. -/
def ratIsNeg (q : ℚ) : Bool := decide (q.num < 0)

/-- `q === 0`, computed on the canonical representation. -/
def ratIsZero (q : ℚ) : Bool := decide (q.num = 0)

/-- `Math.abs`, kept kernel-reducible. -/
def ratAbs (q : ℚ) : ℚ := if ratIsNeg q then mkRat (-q.num) q.den else q

example : jsParseFloat "1234.56" = some (mkRat 123456 100) := by decide
example : jsParseFloat "10-50" = some (mkRat 10 1) := by decide
example : jsParseFloat "-10.5" = some (mkRat (-21) 2) := by decide
example : jsParseFloat "." = none := by decide
example : jsParseFloat "1e2" = some (mkRat 100 1) := by decide
example : jsParseFloat "25e-2" = some (mkRat 1 4) := by decide
example : jsParseInt "2026" = some 2026 := by decide
example : jsParseInt "" = none := by decide
example : ratAbs (mkRat (-21) 2) = mkRat 21 2 := by decide

/-! ## The data model of a parsed row

A parsed cell is `string | number | Date | null`
(`ParsedRow` in `src/lib/services/import-service.ts`).  The row normalizer
only ever reads the three mapped cells, so a raw row is modelled as the
triple of cells that the column mapping selects. -/

inductive Cell where
  | text (s : String)
  | num (q : ℚ)
  | date (ms : Int)
  | null
deriving DecidableEq, Repr

/-- JavaScript truthiness of a cell value (`!value` tests): `null`, the
empty string and the number 0 are falsy; a `Date` object is always truthy. -/
def Cell.truthy : Cell → Bool
  | .text s => !strIsEmpty s
  | .num q => !ratIsZero q
  | .date _ => true
  | .null => false

/-- A best-effort stand-in for JavaScript's `String(value)` on the two cell
shapes that are not already strings.  The pipeline's description column is
text in every behavior the claims exercise; this rendering is only required
to be deterministic. -/
def cellToString : Cell → String
  | .text s => s
  | .num q => toString q.num ++ (if q.den = 1 then "" else "/" ++ toString q.den)
  | .date ms => "Date(" ++ toString ms ++ ")"
  | .null => ""

/-! ## Amount parsing (identical in `ImportClient.tsx` and the unnamed
variant, lines 181–240 resp. 200–259) -/

/-- `cleaned.replace(/[R$\s]/g, '')` applied after `amountRaw.trim()`. -/
def stripCurrency (s : String) : String :=
  String.mk ((jsTrim s).toList.filter (fun c => !(c == 'R' || c == '$' || jsWs c)))

/-- The separator-disambiguation rewriting of the amount text: the body of
the `hasComma`/`hasDot` cases, producing the string handed to `parseFloat`. -/
def sepStage (cleaned : String) : String :=
  if (jsIncludes cleaned "," && jsIncludes cleaned ".") = true then
    if lastIndexOfChar '.' cleaned < lastIndexOfChar ',' cleaned then
      strReplaceFirst ',' '.' (strRemoveAll '.' cleaned)
    else
      strRemoveAll ',' cleaned
  else if jsIncludes cleaned "," = true then
    if (strSplitChar ',' cleaned).length = 2 &&
        ((strSplitChar ',' cleaned).getD 1 "").length ≤ 2 then
      strReplaceFirst ',' '.' cleaned
    else
      strRemoveAll ',' cleaned
  else if jsIncludes cleaned "." = true then
    if (strSplitChar '.' cleaned).length = 2 &&
        ((strSplitChar '.' cleaned).getD 1 "").length ≤ 2 then
      cleaned
    else
      strRemoveAll '.' cleaned
  else cleaned

/-- The full amount-text cleaning: trim, strip currency and whitespace,
then disambiguate the separators. -/
def cleanAmountText (raw : String) : String :=
  sepStage (stripCurrency raw)

/-- The signed value `parseFloat(cleaned)` of a text amount cell, before
`Math.abs`. -/
def parseAmountSigned (raw : String) : Option ℚ :=
  jsParseFloat (cleanAmountText raw)

/-- The `amount` variable after the `if (typeof amountRaw === 'number') ...
else if (typeof amountRaw === 'string') ...` block: for any other cell shape
it keeps its initialization `0` (and the zero check then drops the row). -/
def amountOfCell : Cell → Option ℚ
  | .num q => some (ratAbs q)
  | .text s => (parseAmountSigned s).map ratAbs
  | _ => some 0

inductive Kind where
  | INCOME
  | EXPENSE
deriving DecidableEq, Repr

/-- Type classification (lines 242–247 resp. 261–266): INCOME when a numeric
cell is negative or a text cell contains the character `'-'` anywhere,
EXPENSE otherwise. -/
def classifyKind : Cell → Kind
  | .num q => if ratIsNeg q then .INCOME else .EXPENSE
  | .text s => if jsIncludes s "-" then .INCOME else .EXPENSE
  | _ => .EXPENSE

example : cleanAmountText "1.234,56" = "1234.56" := by decide
example : cleanAmountText "1,234.56" = "1234.56" := by decide
example : cleanAmountText "10,50" = "10.50" := by decide
example : cleanAmountText "1.234" = "1234" := by decide
example : cleanAmountText "R$ 1.234,56" = "1234.56" := by decide
example : amountOfCell (.text "-10,50") = some (mkRat 21 2) := by decide
example : classifyKind (.num (mkRat (-10) 1)) = .INCOME := by decide

/-! ## Date parsing

Comparisons against a `parseInt` result follow JavaScript's `NaN`
semantics: every comparison with `NaN` is false. -/

def oGT (o : Option Int) (k : Int) : Bool :=
  match o with
  | some v => decide (k < v)
  | none => false

def oLE (o : Option Int) (k : Int) : Bool :=
  match o with
  | some v => decide (v ≤ k)
  | none => false

def oGE (o : Option Int) (k : Int) : Bool :=
  match o with
  | some v => decide (k ≤ v)
  | none => false

/-- `new Date(y, m0, d, hh, 0, 0)` where any `NaN` component makes the date
invalid. -/
def mkDateOpt (tz : Int) (y m0 d : Option Int) (hh : Int) : Option Int :=
  match y, m0, d with
  | some a, some b, some c => some (jsMakeDate tz a b c hh)
  | _, _, _ => none

/-- The date-part separators `[\/\-\. ]`. -/
def dateSep (c : Char) : Bool :=
  c == '/' || c == '-' || c == '.' || c == ' '

/-- Text date parsing of `ImportClient.tsx` (lines 144–177):
`dateStr.trim().split(/[\/\-\. ]/)`, three-part disambiguation with the
2-digit-year expansion applied before the branch tests, otherwise
`new Date(dateStr)` on the original string.  All constructed dates carry
hour 0 (local midnight). -/
def parseDateTextClient (tz : Int) (genParse : String → Option Int) (s : String) : Option Int :=
  let parts := strSplitAny dateSep (jsTrim s)
  if parts.length = 3 then
    let p0 := parts.getD 0 ""
    let p1 := parts.getD 1 ""
    let p2 := parts.getD 2 ""
    let first := jsParseInt p0
    let second := jsParseInt p1
    let third0 := jsParseInt p2
    let third :=
      if p2.length = 2 && oGE third0 0 && oLE third0 99 then
        third0.map (fun t => if t < 50 then 2000 + t else 1900 + t)
      else third0
    if p0.length = 4 || oGT first 999 then
      mkDateOpt tz first (second.map (· - 1)) third 0
    else if oGT first 12 && oLE first 31 then
      mkDateOpt tz third (second.map (· - 1)) first 0
    else if oGT second 12 && oLE second 31 then
      mkDateOpt tz third (first.map (· - 1)) second 0
    else
      mkDateOpt tz third (second.map (· - 1)) first 0
  else genParse s

/-- Text date parsing of the unnamed variant (`part_011`, lines 154–196):
`cleanStr.split(/[\/\-\. ]+/).filter(p => p)`, a year-first branch, a
year-last branch, a 2-digit-year fallback, otherwise the generic parser on
the trimmed string followed by `setSafeTime`.  All constructed dates carry
hour 12 (local noon). -/
def parseDateTextVariant (tz : Int) (genParse : String → Option Int) (s : String) : Option Int :=
  let clean := jsTrim s
  if strIsEmpty clean then none
  else
    let parts := (strSplitAny dateSep clean).filter (fun p => !strIsEmpty p)
    if parts.length = 3 then
      let p0 := parts.getD 0 ""
      let p1 := parts.getD 1 ""
      let p2 := parts.getD 2 ""
      let n1 := jsParseInt p0
      let n2 := jsParseInt p1
      let n3 := jsParseInt p2
      if p0.length = 4 then
        if oGT n2 12 then mkDateOpt tz n1 (n3.map (· - 1)) n2 12
        else mkDateOpt tz n1 (n2.map (· - 1)) n3 12
      else if p2.length = 4 then
        if oGT n1 12 then mkDateOpt tz n3 (n2.map (· - 1)) n1 12
        else if oGT n2 12 then mkDateOpt tz n3 (n1.map (· - 1)) n2 12
        else mkDateOpt tz n3 (n2.map (· - 1)) n1 12
      else
        let year := n3.map (fun y => if y < 100 then (if y < 50 then y + 2000 else y + 1900) else y)
        mkDateOpt tz year (n2.map (· - 1)) n1 12
    else (genParse clean).map (jsSetHoursNoon tz)

/-- `new Date(1900, 0, 1).getTime()`: local midnight of 1900-01-01. -/
def excelEpochMs (tz : Int) : Int := jsMakeDate tz 1900 0 1 0

/-- `new Date(excelEpoch.getTime() + (serial - 2) * 86400000)`: day-serial
conversion used by both variants.  The sum is computed exactly as one
fraction and truncated toward zero, which is ECMAScript's conversion of a
(possibly fractional) millisecond count into a time value. -/
def serialToMs (tz : Int) (q : ℚ) : Int :=
  (excelEpochMs tz * (q.den : Int) + (q.num - 2 * (q.den : Int)) * msPerDay).tdiv (q.den : Int)

/-- The full date parse of `ImportClient.tsx` on a cell: numeric serials
keep the raw converted time, `Date` cells pass through unchanged
(`new Date(dateObj)` clones), `null` is unreachable behind the truthiness
guard. -/
def parseDateClient (tz : Int) (genParse : String → Option Int) : Cell → Option Int
  | .num q => some (serialToMs tz q)
  | .text s => parseDateTextClient tz genParse s
  | .date ms => some ms
  | .null => none

/-- The full date parse of the unnamed variant on a cell: numeric serials
and `Date` cells are pushed to local noon by `setSafeTime`. -/
def parseDateVariant (tz : Int) (genParse : String → Option Int) : Cell → Option Int
  | .num q => some (jsSetHoursNoon tz (serialToMs tz q))
  | .text s => parseDateTextVariant tz genParse s
  | .date ms => some (jsSetHoursNoon tz ms)
  | .null => none

/-- A generic string-date parser that accepts nothing; used to instantiate
the implementation-defined `new Date(string)` fallback on concrete runs
that never reach it. -/
def noGenParse : String → Option Int := fun _ => none

/-! ## Fingerprint (`generateExternalId`, `src/utils/importUtils.ts`) -/

/-- The SHA-256 digest of the key string
`${date.toISOString()}-${amount}-${description.trim().toLowerCase()}`.
`toISOString` is a bijection on millisecond timestamps, the amount
rendering is injective on numbers, the key concatenation is unambiguous
(the ISO prefix has fixed length and the amount segment contains no `-`
for the normalizer's non-negative amounts), and the hash is treated as
collision-free; the digest is therefore modelled by the key's three
components. -/
structure Fp where
  dateIso : Int
  amount : ℚ
  descKey : String
deriving DecidableEq, Repr

def generateExternalId (dateMs : Int) (amount : ℚ) (description : String) : Fp :=
  ⟨dateMs, amount, strToLower (jsTrim description)⟩

/-! ## The row normalizer

Both variants share every step except date parsing, which is passed in. -/

structure Tx where
  dateMs : Int
  description : String
  amount : ℚ
  kind : Kind
  externalId : Fp
deriving DecidableEq, Repr

/-- One iteration of the `.map((row) => ...)` body shared by both variants:
presence check, date parse, amount parse, zero check, classification,
fingerprint. -/
def normalizeWith (dateParse : Cell → Option Int) (dateCell descCell amountCell : Cell) : Option Tx :=
  let desc := jsTrim (if descCell.truthy then cellToString descCell else "")
  if !dateCell.truthy || strIsEmpty desc || !amountCell.truthy then none
  else
    match dateParse dateCell with
    | none => none
    | some ms =>
      match amountOfCell amountCell with
      | none => none
      | some a =>
        if ratIsZero a then none
        else some ⟨ms, desc, a, classifyKind amountCell, generateExternalId ms a desc⟩

/-- The row normalizer of `ImportClient.tsx` (`handleMapping`, lines 129–262). -/
def normalizeRowClient (tz : Int) (genParse : String → Option Int)
    (dateCell descCell amountCell : Cell) : Option Tx :=
  normalizeWith (parseDateClient tz genParse) dateCell descCell amountCell

/-- The row normalizer of the unnamed UI variant (`part_011`,
`handleMapping`, lines 119–281). -/
def normalizeRowVariant (tz : Int) (genParse : String → Option Int)
    (dateCell descCell amountCell : Cell) : Option Tx :=
  normalizeWith (parseDateVariant tz genParse) dateCell descCell amountCell

example :
    (parseDateTextClient 0 noGenParse "31/01/2026").map (localCivil 0) =
      some (2026, 1, 31) := by decide
example :
    (parseDateTextVariant 0 noGenParse "2026-02-01").map (localCivil 0) =
      some (2026, 2, 1) := by decide

/-! ## Column mapping inference (`detectColumnMapping`,
`src/lib/services/import-service.ts` lines 33–59) -/

def datePatterns : List String := ["data", "date", "dt", "dia"]

def descPatterns : List String :=
  ["descrição", "descricao", "description", "histórico", "historico", "memo",
   "lancamento", "lançamento"]

def amountPatterns : List String := ["valor", "amount", "value", "montante", "quantia"]

/-- `patterns.some((p) => lowerHeaders[i].includes(p))` for the header at
position `i`; `lowerHeaders` is `headers.map((h) => h.toLowerCase().trim())`.
(`strToLower` lowercases ASCII letters; the keywords the counterexamples
use are ASCII.) -/
def headerMatches (patterns : List String) (h : String) : Bool :=
  patterns.any (fun p => jsIncludes (jsTrim (strToLower h)) p)

/-- `headers.find((h, i) => patterns.some((p) => lowerHeaders[i].includes(p)))`:
since `lowerHeaders[i]` is exactly the lowered form of the header the
predicate receives, this is a plain `find?` over the headers. -/
def findHeader (patterns : List String) (headers : List String) : Option String :=
  headers.find? (headerMatches patterns)

structure SuggestedMapping where
  dateColumn : Option String
  descriptionColumn : Option String
  amountColumn : Option String
deriving DecidableEq, Repr

def detectColumnMapping (headers : List String) : SuggestedMapping :=
  ⟨findHeader datePatterns headers,
   findHeader descPatterns headers,
   findHeader amountPatterns headers⟩

/-! ## Deduplicating bulk insert (`bulkCreateTransactions` from the
imports DAL, lines 356–405 of `src/lib/services/import-service.ts`'s
concatenated source)

The store is the one owner's transaction list; `prisma` scopes every query
by `userId`, so other owners' rows never interact with these operations
and are omitted from the model. -/

/-- A persisted transaction row (`transactions` table).  `externalId` is a
nullable column and carries no uniqueness constraint in
`prisma/migrations/20260209232706_init/migration.sql`. -/
structure StoredTx where
  dateMs : Int
  description : String
  amount : ℚ
  kind : Kind
  externalId : Option Fp
deriving DecidableEq, Repr

/-- One element of the `transactions` array accepted by
`confirmImport`/`bulkCreateTransactions`. -/
structure BatchTx where
  dateMs : Int
  description : String
  amount : ℚ
  kind : Kind
  externalId : Option Fp
deriving DecidableEq, Repr

/-- `tx.externalId || generateExternalId(tx.date, tx.amount, tx.description)`. -/
def fpOf (tx : BatchTx) : Fp :=
  tx.externalId.getD (generateExternalId tx.dateMs tx.amount tx.description)

/-- The externalIds present in the owner's store (rows with a null
`externalId` are transparent to the dedup query). -/
def storeFps (store : List StoredTx) : List Fp :=
  store.filterMap (·.externalId)

/-- `findDuplicateTransactions(userId, externalIds)`: one result element per
matching stored row. -/
def findDuplicateTransactions (store : List StoredTx) (ids : List Fp) : List Fp :=
  (storeFps store).filter (fun fp => decide (fp ∈ ids))

structure BulkResult where
  store : List StoredTx
  imported : Nat
  skipped : Nat
deriving DecidableEq, Repr

def toStored (tx : BatchTx) (fp : Fp) : StoredTx :=
  ⟨tx.dateMs, tx.description, tx.amount, tx.kind, some fp⟩

/-- `allExternalIds`: the (possibly defaulted) externalId of every batch
element, in batch order. -/
def batchFps (batch : List BatchTx) : List Fp :=
  batch.map fpOf

/-- `newTransactions`: the batch elements whose externalId is not among
the duplicates returned by the store query.  (`fpOf tx` is the
`externalId` field `txsWithExternalId` materializes on each element.) -/
def newTxsOf (store : List StoredTx) (batch : List BatchTx) : List BatchTx :=
  batch.filter (fun tx =>
    decide (fpOf tx ∉ findDuplicateTransactions store (batchFps batch)))

/-- `bulkCreateTransactions`: default missing externalIds, query the
duplicates, filter them out of the batch, `createMany` the remainder,
report `imported = newTransactions.length` and
`skipped = duplicates.length`. -/
def bulkCreateTransactions (store : List StoredTx) (batch : List BatchTx) : BulkResult :=
  ⟨store ++ (newTxsOf store batch).map (fun tx => toStored tx (fpOf tx)),
   (newTxsOf store batch).length,
   (findDuplicateTransactions store (batchFps batch)).length⟩

/-! ## The commit coordinator (`confirmImport`, `src/actions/imports.ts`) -/

inductive ImportStatus where
  | PROCESSING
  | COMPLETED
  | FAILED
deriving DecidableEq, Repr

structure ImportLog where
  fileName : String
  totalRows : Nat
  importedRows : Nat
  skippedRows : Nat
  status : ImportStatus
  errorMessage : Option String
deriving DecidableEq, Repr

/-- What the bulk insert throws when it fails: a JavaScript `Error` carries
a message string (possibly empty); any other thrown value has none. -/
inductive Thrown where
  | err (message : String)
  | nonError
deriving DecidableEq, Repr

/-- Whether `prisma.transaction.createMany` succeeds or throws.  A
`createMany` is a single SQL `INSERT`, so a failing call writes no rows. -/
inductive InsertOutcome where
  | ok
  | fails (e : Thrown)
deriving DecidableEq, Repr

structure ActionResult where
  success : Bool
  error : Option String
  imported : Option Nat
  skipped : Option Nat
deriving DecidableEq, Repr

/-- The owner's persisted state: their transactions and import logs. -/
structure World where
  txs : List StoredTx
  logs : List ImportLog
deriving DecidableEq, Repr

/-- Update the element at an index (the `prisma.importLog.update` by id). -/
def listModify : List ImportLog → Nat → (ImportLog → ImportLog) → List ImportLog
  | [], _, _ => []
  | x :: xs, 0, f => f x :: xs
  | x :: xs, n + 1, f => x :: listModify xs n f

/-- `importsDAL.createImportLog(userId, fileName, transactions.length)`:
a fresh log in `PROCESSING` (the schema defaults); returns the log id,
modelled as its index. -/
def createImportLog (w : World) (fileName : String) (totalRows : Nat) : World × Nat :=
  ({ w with logs := w.logs ++ [⟨fileName, totalRows, 0, 0, .PROCESSING, none⟩] },
   w.logs.length)

def updateImportLog (w : World) (logId : Nat) (f : ImportLog → ImportLog) : World :=
  { w with logs := listModify w.logs logId f }

/-- `error instanceof Error ? error.message : 'Erro desconhecido'` (the
inner catch that writes the log). -/
def capturedMessage : Thrown → String
  | .err m => m
  | .nonError => "Erro desconhecido"

/-- `error instanceof Error ? error.message : 'Erro ao importar
transações.'` (the outer catch that builds the action result). -/
def outerMessage : Thrown → String
  | .err m => m
  | .nonError => "Erro ao importar transações."

/-- `confirmImport` after successful validation and authentication: create
the log, run the bulk insert, then either complete the log and report the
counts, or (on an insert failure) mark the log `FAILED` with the captured
message and return the outer catch's failure result. -/
def confirmImport (w : World) (fileName : String) (batch : List BatchTx)
    (outcome : InsertOutcome) : World × ActionResult :=
  let (w1, logId) := createImportLog w fileName batch.length
  match outcome with
  | .ok =>
    let r := bulkCreateTransactions w1.txs batch
    let w2 := { w1 with txs := r.store }
    let w3 := updateImportLog w2 logId (fun log =>
      { log with importedRows := r.imported, skippedRows := r.skipped,
                 status := .COMPLETED })
    (w3, ⟨true, none, some r.imported, some r.skipped⟩)
  | .fails e =>
    let w2 := updateImportLog w1 logId (fun log =>
      { log with status := .FAILED, errorMessage := some (capturedMessage e) })
    (w2, ⟨false, some (outerMessage e), none, none⟩)

/-! ## The client-side pipeline from parsed rows to the commit result

`handleMapping` normalizes the parsed rows (dropping the failing ones) and
`handleConfirmImport` submits the survivors to `confirmImport`. -/

/-- A raw data row, reduced to the three cells the column mapping selects:
`(row[dateColumn], row[descriptionColumn], row[amountColumn])`. -/
def RawRow : Type := Cell × Cell × Cell

def normalizeRows (tz : Int) (genParse : String → Option Int) (rows : List RawRow) : List Tx :=
  rows.filterMap (fun r => normalizeRowClient tz genParse r.1 r.2.1 r.2.2)

def txToBatch (t : Tx) : BatchTx :=
  ⟨t.dateMs, t.description, t.amount, t.kind, some t.externalId⟩

/-- The full commit of one uploaded file's parsed rows against a store. -/
def runImport (tz : Int) (genParse : String → Option Int) (store : List StoredTx)
    (rows : List RawRow) : BulkResult :=
  bulkCreateTransactions store ((normalizeRows tz genParse rows).map txToBatch)

/-- The rows the Row Normalizer drops: blank mapped field, unparsable
date, or zero/non-numeric amount. -/
def droppedRowCount (tz : Int) (genParse : String → Option Int) (rows : List RawRow) : Nat :=
  rows.length - (normalizeRows tz genParse rows).length

/-! ## General list lemmas used by several claims -/

theorem find?_eq_some_split {α : Type} (p : α → Bool) :
    ∀ (l : List α) (a : α),
      l.find? p = some a ↔
        ∃ l₁ l₂, l = l₁ ++ a :: l₂ ∧ p a = true ∧ ∀ x ∈ l₁, p x = false
  | [], a => by simp
  | x :: xs, a => by
    cases hx : p x with
    | true =>
      rw [List.find?_cons_of_pos _ hx]
      constructor
      · rintro h
        injection h with h
        exact ⟨[], xs, by simp [h], h ▸ hx, by simp⟩
      · rintro ⟨l₁, l₂, heq, hpa, hprev⟩
        cases l₁ with
        | nil =>
          simp only [List.nil_append, List.cons.injEq] at heq
          rw [heq.1]
        | cons y ys =>
          simp only [List.cons_append, List.cons.injEq] at heq
          have : p x = false := heq.1 ▸ hprev y (by simp)
          rw [this] at hx
          cases hx
    | false =>
      rw [List.find?_cons_of_neg _ (by simp [hx]), find?_eq_some_split p xs a]
      constructor
      · rintro ⟨l₁, l₂, heq, hpa, hprev⟩
        refine ⟨x :: l₁, l₂, by simp [heq], hpa, ?_⟩
        intro z hz
        rcases List.mem_cons.mp hz with rfl | hz'
        · exact hx
        · exact hprev z hz'
      · rintro ⟨l₁, l₂, heq, hpa, hprev⟩
        cases l₁ with
        | nil =>
          simp only [List.nil_append, List.cons.injEq] at heq
          rw [heq.1] at hx
          rw [hx] at hpa
          cases hpa
        | cons y ys =>
          simp only [List.cons_append, List.cons.injEq] at heq
          exact ⟨ys, l₂, heq.2, hpa, fun z hz => hprev z (by simp [hz])⟩

/-! ## Claim C4 — text date disambiguation -/

/-- C4: for a text date cell with three numeric parts, a 4-digit first part
is the year (ordered year-month-day or year-day-month by whether the middle
part exceeds 12), a 4-digit last part makes the first two parts day/month
by whichever exceeds 12 with a day-first default, and 2-digit years expand
to 2000+yy (yy<50) or 1900+yy; "31/01/2026" parses to 2026-01-31 and
"01/02/2026" to 2026-02-01 in both normalizer variants, and "2026-02-01"
parses to 2026-02-01 — which the unnamed variant satisfies, while
`ImportClient.tsx` first rewrites the 2-digit day "01" into the year 2001
and computes `new Date(2026, 1, 2001)`, i.e. 2031-07-25: the code
contradicts its own `// YYYY-MM-DD or YYYY/MM/DD` comment and its duplicate
implementation, a slip in the primary variant. -/
theorem c4_text_date_parsing_bug :
    (parseDateTextVariant 0 noGenParse "31/01/2026").map (localCivil 0) = some (2026, 1, 31) ∧
    (parseDateTextVariant 0 noGenParse "01/02/2026").map (localCivil 0) = some (2026, 2, 1) ∧
    (parseDateTextVariant 0 noGenParse "2026-02-01").map (localCivil 0) = some (2026, 2, 1) ∧
    (parseDateTextClient 0 noGenParse "31/01/2026").map (localCivil 0) = some (2026, 1, 31) ∧
    (parseDateTextClient 0 noGenParse "01/02/2026").map (localCivil 0) = some (2026, 2, 1) ∧
    (parseDateTextClient 0 noGenParse "2026-02-01").map (localCivil 0) = some (2031, 7, 25) := by
  decide

/-! ## Claim C5 — numeric day-serial dates -/

/-- C5 counterexample: in a UTC-3 environment (Brazil, `tz = -10800000`),
the serial 45000 is carried to 03:00 UTC by `ImportClient.tsx` (local
midnight, no `setSafeTime` in its numeric branch) and to 15:00 UTC by the
unnamed variant (local noon); neither is the claimed midday UTC. -/
theorem c5_counterexample :
    (parseDateClient (-10800000) noGenParse (.num (mkRat 45000 1))).map utcTimeOfDay ≠
      some (12 * msPerHour) ∧
    (parseDateVariant (-10800000) noGenParse (.num (mkRat 45000 1))).map utcTimeOfDay ≠
      some (12 * msPerHour) := by
  decide

/-- C5 (amended): a numeric date cell holding the integer `q` is
interpreted as a spreadsheet day-serial with epoch 1899-12-30 read in
local time; the unnamed variant normalizes the result to midday local
time (not UTC), while `ImportClient.tsx` leaves it at local midnight. -/
theorem c5_day_serial_epoch (tz : Int) (q : ℚ) (h : q.den = 1) :
    parseDateClient tz noGenParse (.num q) =
      some ((daysFromCivil 1899 12 30 + q.num) * msPerDay - tz) ∧
    parseDateVariant tz noGenParse (.num q) =
      some ((daysFromCivil 1899 12 30 + q.num) * msPerDay + 12 * msPerHour - tz) := by
  have hd : daysFromCivil 1899 12 30 = -25569 := by decide
  have hepoch : excelEpochMs tz = -25567 * msPerDay - tz := by
    unfold excelEpochMs jsMakeDate
    rw [if_neg (by decide)]
    have hdays : jsLocalDays 1900 0 1 = -25567 := by decide
    rw [hdays]
    ring
  have hserial : serialToMs tz q = (daysFromCivil 1899 12 30 + q.num) * msPerDay - tz := by
    unfold serialToMs
    rw [hepoch, h, hd]
    simp only [Nat.cast_one]
    rw [Int.tdiv_one]
    ring
  refine ⟨?_, ?_⟩
  · simp only [parseDateClient, hserial]
  · simp only [parseDateVariant, hserial]
    congr 1
    unfold jsSetHoursNoon
    have : (daysFromCivil 1899 12 30 + q.num) * msPerDay - tz + tz =
        (daysFromCivil 1899 12 30 + q.num) * msPerDay := by ring
    rw [this]
    have h3 : ((daysFromCivil 1899 12 30 + q.num) * msPerDay).emod msPerDay = 0 :=
      Int.mul_emod_left _ _
    rw [h3]
    ring

/-- C5 witness: serial 45000 at UTC is 2023-03-15 local midnight for the
client variant. -/
theorem c5_day_serial_epoch_witness :
    (mkRat 45000 1).den = 1 ∧
    parseDateClient 0 noGenParse (.num (mkRat 45000 1)) =
      some ((daysFromCivil 1899 12 30 + (mkRat 45000 1).num) * msPerDay - 0) :=
  ⟨by decide, (c5_day_serial_epoch 0 (mkRat 45000 1) (by decide)).1⟩

/-! ## Claim C9 — column mapping inference -/

/-- Modelled from the spec's tie-breaking sentence (second definition for
the refinement comparison; it follows the claim's words, not the code):
keywords are tried in list order and, for the first keyword any header
contains, the first such header is returned. -/
def keywordOrderFindHeader (patterns : List String) (headers : List String) : Option String :=
  patterns.findSome? (fun p => headers.find? (fun h => jsIncludes (jsTrim (strToLower h)) p))

/-- C9 counterexample: on headers `["dia", "data"]` the code returns the
positionally first matching header `"dia"` (matched by the fourth keyword
`"dia"`), while keyword-list-order tie resolution would return `"data"`
(matched by the first keyword `"data"`). -/
theorem c9_counterexample :
    (detectColumnMapping ["dia", "data"]).dateColumn = some "dia" ∧
    keywordOrderFindHeader datePatterns ["dia", "data"] = some "data" ∧
    (detectColumnMapping ["dia", "data"]).dateColumn ≠
      keywordOrderFindHeader datePatterns ["dia", "data"] := by
  decide

/-- C9 (amended): `detectColumnMapping` is a pure function and each of its
three suggestions is the positionally first header whose lower-cased
trimmed text contains any keyword of that target's list (`none` when no
header matches); ties between several matching headers are resolved by
header position, not by keyword-list order. -/
theorem c9_first_header_by_position (headers : List String) (a : String) :
    ((detectColumnMapping headers).dateColumn = some a ↔
      ∃ pre post, headers = pre ++ a :: post ∧ headerMatches datePatterns a = true ∧
        ∀ h ∈ pre, headerMatches datePatterns h = false) ∧
    ((detectColumnMapping headers).descriptionColumn = some a ↔
      ∃ pre post, headers = pre ++ a :: post ∧ headerMatches descPatterns a = true ∧
        ∀ h ∈ pre, headerMatches descPatterns h = false) ∧
    ((detectColumnMapping headers).amountColumn = some a ↔
      ∃ pre post, headers = pre ++ a :: post ∧ headerMatches amountPatterns a = true ∧
        ∀ h ∈ pre, headerMatches amountPatterns h = false) :=
  ⟨find?_eq_some_split (headerMatches datePatterns) headers a,
   find?_eq_some_split (headerMatches descPatterns) headers a,
   find?_eq_some_split (headerMatches amountPatterns) headers a⟩

/-! ## Claim C6 — the fingerprint is a pure function of its key -/

/-- C6: the fingerprint depends only on the normalized date, the amount,
and the lower-cased trimmed description — equal keys collide by design
(in particular two descriptions differing only in casing or surrounding
whitespace), and two rows with different amounts get different
fingerprints. -/
theorem c6_fingerprint_key :
    (∀ (d₁ d₂ : Int) (a₁ a₂ : ℚ) (s₁ s₂ : String),
      d₁ = d₂ → a₁ = a₂ → strToLower (jsTrim s₁) = strToLower (jsTrim s₂) →
      generateExternalId d₁ a₁ s₁ = generateExternalId d₂ a₂ s₂) ∧
    (∀ (d : Int) (a₁ a₂ : ℚ) (s : String), a₁ ≠ a₂ →
      generateExternalId d a₁ s ≠ generateExternalId d a₂ s) := by
  constructor
  · intro d₁ d₂ a₁ a₂ s₁ s₂ hd ha hs
    subst hd
    subst ha
    unfold generateExternalId
    rw [hs]
  · intro d a₁ a₂ s hne h
    apply hne
    have := congrArg Fp.amount h
    simpa [generateExternalId] using this

/-- C6 witness: `" Mercado X "` and `"mercado x"` collide with equal dates
and amounts, and amounts 10 and 20 separate otherwise identical rows. -/
theorem c6_fingerprint_key_witness :
    generateExternalId 1678838400000 (mkRat 21 2) " Mercado X " =
      generateExternalId 1678838400000 (mkRat 21 2) "mercado x" ∧
    generateExternalId 0 (mkRat 10 1) "a" ≠ generateExternalId 0 (mkRat 20 1) "a" :=
  ⟨c6_fingerprint_key.1 _ _ _ _ " Mercado X " "mercado x" rfl rfl (by decide),
   c6_fingerprint_key.2 0 (mkRat 10 1) (mkRat 20 1) "a" (by decide)⟩

/-! ## Claim C7 — fingerprint uniqueness across a commit -/

theorem storeFps_append (s₁ s₂ : List StoredTx) :
    storeFps (s₁ ++ s₂) = storeFps s₁ ++ storeFps s₂ :=
  List.filterMap_append s₁ s₂ _

theorem storeFps_inserted (l : List BatchTx) :
    storeFps (l.map (fun tx => toStored tx (fpOf tx))) = l.map fpOf := by
  induction l with
  | nil => rfl
  | cons tx rest ih =>
    simp only [List.map_cons, storeFps, List.filterMap_cons] at ih ⊢
    rw [show (toStored tx (fpOf tx)).externalId = some (fpOf tx) from rfl]
    rw [ih]

/-- No batch element surviving the duplicate filter carries a fingerprint
already present in the owner's store. -/
theorem newTxs_fp_fresh (store : List StoredTx) (batch : List BatchTx) :
    ∀ tx ∈ newTxsOf store batch, fpOf tx ∉ storeFps store := by
  intro tx htx hmem
  unfold newTxsOf at htx
  obtain ⟨hb, hdec⟩ := List.mem_filter.mp htx
  have hdup : fpOf tx ∈ findDuplicateTransactions store (batchFps batch) := by
    unfold findDuplicateTransactions
    refine List.mem_filter.mpr ⟨hmem, ?_⟩
    exact decide_eq_true (List.mem_map_of_mem fpOf hb)
  exact (of_decide_eq_true hdec) hdup

/-- C7 (amended): `bulkCreateTransactions` never inserts a fingerprint that
is already in the owner's store, and when the store's fingerprints and the
batch's fingerprints are each pairwise distinct, the owner's post-commit
fingerprints are still pairwise distinct.  (The claim's parenthetical about
a batch containing the same fingerprint twice fails: neither the filter nor
the schema — `externalId` has no unique index — collapses intra-batch
duplicates, so both copies are inserted.) -/
theorem c7_fingerprint_uniqueness :
    (∀ (store : List StoredTx) (batch : List BatchTx),
      ∀ tx ∈ newTxsOf store batch, fpOf tx ∉ storeFps store) ∧
    (∀ (store : List StoredTx) (batch : List BatchTx),
      (storeFps store).Nodup → (batchFps batch).Nodup →
      (storeFps (bulkCreateTransactions store batch).store).Nodup) := by
  refine ⟨newTxs_fp_fresh, ?_⟩
  intro store batch hs hb
  have hstore : (bulkCreateTransactions store batch).store =
      store ++ (newTxsOf store batch).map (fun tx => toStored tx (fpOf tx)) := rfl
  rw [hstore, storeFps_append, storeFps_inserted]
  refine List.Nodup.append hs ?_ ?_
  · have hsub : ((newTxsOf store batch).map fpOf).Sublist (batchFps batch) := by
      unfold newTxsOf batchFps
      exact List.Sublist.map fpOf (List.filter_sublist batch)
    exact hsub.nodup hb
  · intro fp hfp hfp'
    obtain ⟨tx, htx, rfl⟩ := List.mem_map.mp hfp'
    exact newTxs_fp_fresh store batch tx htx hfp

/-- C7 counterexample: an empty store and a batch holding the same row
twice — both copies are inserted and the post-commit fingerprints are not
pairwise distinct. -/
theorem c7_counterexample :
    ¬ (storeFps (bulkCreateTransactions []
        [⟨0, "a", mkRat 10 1, Kind.EXPENSE, none⟩,
         ⟨0, "a", mkRat 10 1, Kind.EXPENSE, none⟩]).store).Nodup := by
  decide

/-- C7 witness: a singleton batch against an empty store. -/
theorem c7_fingerprint_uniqueness_witness :
    (storeFps ([] : List StoredTx)).Nodup ∧
    (batchFps [⟨0, "a", mkRat 10 1, Kind.EXPENSE, none⟩]).Nodup ∧
    (storeFps (bulkCreateTransactions []
      [⟨0, "a", mkRat 10 1, Kind.EXPENSE, none⟩]).store).Nodup :=
  ⟨by decide, by decide,
   c7_fingerprint_uniqueness.2 [] [⟨0, "a", mkRat 10 1, Kind.EXPENSE, none⟩]
     (by decide) (by decide)⟩

/-! ## Claim C8 — failure handling in the commit coordinator -/

theorem listModify_append_singleton (f : ImportLog → ImportLog) :
    ∀ (l : List ImportLog) (x : ImportLog),
      listModify (l ++ [x]) l.length f = l ++ [f x]
  | [], x => rfl
  | y :: ys, x => by
    show y :: listModify (ys ++ [x]) ys.length f = y :: (ys ++ [f x])
    rw [listModify_append_singleton f ys x]

/-- C8 (amended): when the bulk insert throws after the ImportLog was
created, `confirmImport` returns a failure (never success), the owner's
transactions are unchanged (`createMany` is a single atomic INSERT), and
the just-created log ends in `FAILED` carrying the captured error text —
which is the thrown `Error`'s own message (so it is empty exactly when
that message is empty; a non-`Error` throw is recorded as
`"Erro desconhecido"`). -/
theorem c8_insert_failure_audited (w : World) (fileName : String)
    (batch : List BatchTx) (e : Thrown) :
    (confirmImport w fileName batch (.fails e)).2.success = false ∧
    (confirmImport w fileName batch (.fails e)).1.txs = w.txs ∧
    (confirmImport w fileName batch (.fails e)).1.logs =
      w.logs ++ [⟨fileName, batch.length, 0, 0, .FAILED, some (capturedMessage e)⟩] := by
  refine ⟨rfl, rfl, ?_⟩
  show listModify (w.logs ++ [⟨fileName, batch.length, 0, 0, .PROCESSING, none⟩])
      w.logs.length _ = _
  rw [listModify_append_singleton]

/-- C8 counterexample: a JavaScript `Error` whose `message` is the empty
string is captured verbatim, so the FAILED log's error message is empty —
against the claim's "non-empty captured error message". -/
theorem c8_counterexample :
    (confirmImport ⟨[], []⟩ "extrato.csv" [] (.fails (.err ""))).1.logs =
      [⟨"extrato.csv", 0, 0, 0, .FAILED, some ""⟩] ∧
    ¬ ∃ m, m ≠ "" ∧
      (confirmImport ⟨[], []⟩ "extrato.csv" [] (.fails (.err ""))).1.logs =
        [⟨"extrato.csv", 0, 0, 0, .FAILED, some m⟩] := by
  have h1 : (confirmImport ⟨[], []⟩ "extrato.csv" [] (.fails (.err ""))).1.logs =
      [⟨"extrato.csv", 0, 0, 0, .FAILED, some ""⟩] := rfl
  refine ⟨h1, ?_⟩
  rintro ⟨m, hne, hm⟩
  rw [h1] at hm
  simp only [List.cons.injEq, ImportLog.mk.injEq, Option.some.injEq, and_true,
    true_and] at hm
  exact hne hm.symm

/-! ## Claim C10 — equivalence of the duplicated normalizers -/

/-- C10 counterexample: the two normalizers disagree on the row
`("2026-02-01", "a", 10)`: `ImportClient.tsx` produces the rolled-over
date 2031-07-25 at local midnight, the unnamed variant 2026-02-01 at local
noon, so the dates and hence the fingerprints differ. -/
theorem c10_counterexample :
    normalizeRowClient 0 noGenParse (.text "2026-02-01") (.text "a") (.num (mkRat 10 1)) ≠
      normalizeRowVariant 0 noGenParse (.text "2026-02-01") (.text "a") (.num (mkRat 10 1)) := by
  decide

/-- C10 (amended): whenever both normalizers keep a row, they agree on its
description, amount, and kind — everything except the date: the unnamed
variant normalizes times to local noon while `ImportClient.tsx` does not,
the two text-date parsers can disagree on the calendar day itself, and
through the date the fingerprints can also differ — and they can even
disagree on whether a row is dropped. -/
theorem c10_shared_fields_agree (tz : Int) (genParse : String → Option Int)
    (dateCell descCell amountCell : Cell) (t t' : Tx)
    (h : normalizeRowClient tz genParse dateCell descCell amountCell = some t)
    (h' : normalizeRowVariant tz genParse dateCell descCell amountCell = some t') :
    t.description = t'.description ∧ t.amount = t'.amount ∧ t.kind = t'.kind := by
  unfold normalizeRowClient normalizeWith at h
  unfold normalizeRowVariant normalizeWith at h'
  by_cases hg : (!dateCell.truthy ||
      strIsEmpty (jsTrim (if descCell.truthy then cellToString descCell else "")) ||
      !amountCell.truthy) = true
  · rw [if_pos hg] at h
    exact absurd h (by simp)
  · rw [if_neg hg] at h h'
    cases hdc : parseDateClient tz genParse dateCell with
    | none => simp [hdc] at h
    | some ms =>
      simp only [hdc] at h
      cases hdv : parseDateVariant tz genParse dateCell with
      | none => simp [hdv] at h'
      | some ms' =>
        simp only [hdv] at h'
        cases ha : amountOfCell amountCell with
        | none => simp [ha] at h
        | some a =>
          simp only [ha] at h h'
          by_cases hz : ratIsZero a = true
          · rw [if_pos hz] at h
            exact absurd h (by simp)
          · rw [if_neg hz] at h h'
            injection h with h
            injection h' with h'
            rw [← h, ← h']
            exact ⟨rfl, rfl, rfl⟩

/-- C10 witness: on `("31/01/2026", "a", -10)` both normalizers keep the
row (12 hours apart) and the shared fields coincide. -/
theorem c10_shared_fields_agree_witness :
    normalizeRowClient 0 noGenParse (.text "31/01/2026") (.text "a") (.num (mkRat (-10) 1)) =
      some ⟨1769817600000, "a", mkRat 10 1, .INCOME, ⟨1769817600000, mkRat 10 1, "a"⟩⟩ ∧
    normalizeRowVariant 0 noGenParse (.text "31/01/2026") (.text "a") (.num (mkRat (-10) 1)) =
      some ⟨1769860800000, "a", mkRat 10 1, .INCOME, ⟨1769860800000, mkRat 10 1, "a"⟩⟩ ∧
    ((⟨1769817600000, "a", mkRat 10 1, .INCOME, ⟨1769817600000, mkRat 10 1, "a"⟩⟩ : Tx).description =
        (⟨1769860800000, "a", mkRat 10 1, .INCOME, ⟨1769860800000, mkRat 10 1, "a"⟩⟩ : Tx).description ∧
      (⟨1769817600000, "a", mkRat 10 1, .INCOME, ⟨1769817600000, mkRat 10 1, "a"⟩⟩ : Tx).amount =
        (⟨1769860800000, "a", mkRat 10 1, .INCOME, ⟨1769860800000, mkRat 10 1, "a"⟩⟩ : Tx).amount ∧
      (⟨1769817600000, "a", mkRat 10 1, .INCOME, ⟨1769817600000, mkRat 10 1, "a"⟩⟩ : Tx).kind =
        (⟨1769860800000, "a", mkRat 10 1, .INCOME, ⟨1769860800000, mkRat 10 1, "a"⟩⟩ : Tx).kind) :=
  ⟨by decide, by decide,
   c10_shared_fields_agree 0 noGenParse (.text "31/01/2026") (.text "a") (.num (mkRat (-10) 1))
     ⟨1769817600000, "a", mkRat 10 1, .INCOME, ⟨1769817600000, mkRat 10 1, "a"⟩⟩
     ⟨1769860800000, "a", mkRat 10 1, .INCOME, ⟨1769860800000, mkRat 10 1, "a"⟩⟩
     (by decide) (by decide)⟩

/-! ## Claim C2 — sign-to-kind classification -/

theorem charsContain_singleton (c : Char) :
    ∀ l : List Char, charsContain [c] l = true ↔ c ∈ l
  | [] => by simp [charsContain]
  | x :: xs => by
    simp only [charsContain, charsStartWith, Bool.and_true, Bool.or_eq_true,
      charsContain_singleton c xs, List.mem_cons, beq_iff_eq]

theorem jsIncludes_dash (s : String) : jsIncludes s "-" = true ↔ '-' ∈ s.toList :=
  charsContain_singleton '-' s.toList

theorem signSplit_cases (l : List Char) :
    (signSplit l).1 = 1 ∨ ((signSplit l).1 = -1 ∧ '-' ∈ l) := by
  unfold signSplit
  split
  · next rest => exact Or.inr ⟨rfl, by simp⟩
  · next rest => exact Or.inl rfl
  · exact Or.inl rfl

/-- Without a leading minus the parsed value is non-negative. -/
theorem parseBody_one_nonneg (l : List Char) (v : ℚ) (h : parseBody 1 l = some v) :
    0 ≤ v := by
  simp only [parseBody] at h
  split at h
  · cases h
  · split at h
    · injection h with h
      rw [← h]
      refine Rat.mkRat_nonneg ?_ _
      positivity
    · injection h with h
      rw [← h]
      refine Rat.mkRat_nonneg ?_ _
      positivity

/-- A negative `parseFloat` result requires a leading minus, hence a `-`
character in the parsed string. -/
theorem jsParseFloat_neg_mem (t : String) (v : ℚ) (h : jsParseFloat t = some v)
    (hneg : ratIsNeg v = true) : '-' ∈ t.toList := by
  have hvneg : v.num < 0 := of_decide_eq_true hneg
  rcases signSplit_cases (t.toList.dropWhile jsWs) with h1 | ⟨_, hmem⟩
  · exfalso
    simp only [jsParseFloat, h1] at h
    have hnonneg : 0 ≤ v := parseBody_one_nonneg _ v h
    exact absurd (Rat.num_nonneg.mpr hnonneg) (by omega)
  · exact (List.dropWhile_sublist jsWs).subset hmem

theorem mem_of_mem_jsTrim {c : Char} {s : String} (h : c ∈ (jsTrim s).toList) :
    c ∈ s.toList := by
  unfold jsTrim at h
  rw [show (String.mk (((s.toList.dropWhile jsWs).reverse.dropWhile jsWs).reverse)).toList
      = ((s.toList.dropWhile jsWs).reverse.dropWhile jsWs).reverse from rfl] at h
  rw [List.mem_reverse] at h
  have h2 := (List.dropWhile_sublist jsWs).subset h
  rw [List.mem_reverse] at h2
  exact (List.dropWhile_sublist jsWs).subset h2

theorem mem_of_mem_stripCurrency {c : Char} {s : String}
    (h : c ∈ (stripCurrency s).toList) : c ∈ s.toList := by
  unfold stripCurrency at h
  exact mem_of_mem_jsTrim (List.mem_filter.mp h).1

theorem mem_of_mem_strRemoveAll {c x : Char} {s : String}
    (h : c ∈ (strRemoveAll x s).toList) : c ∈ s.toList :=
  (List.mem_filter.mp h).1

theorem mem_of_mem_replaceFirstChar {c x r : Char} (hr : c ≠ r) :
    ∀ {l : List Char}, c ∈ replaceFirstChar x r l → c ∈ l
  | [], h => h
  | y :: ys, h => by
    unfold replaceFirstChar at h
    split at h
    · rcases List.mem_cons.mp h with rfl | hm
      · exact absurd rfl hr
      · exact List.mem_cons_of_mem y hm
    · rcases List.mem_cons.mp h with rfl | hm
      · exact List.mem_cons_self c ys
      · exact List.mem_cons_of_mem y (mem_of_mem_replaceFirstChar hr hm)

/-- A minus sign surviving the amount-cleaning rewrites was present in the
raw amount text. -/
theorem dash_mem_of_cleanAmount {s : String}
    (h : '-' ∈ (cleanAmountText s).toList) : '-' ∈ s.toList := by
  simp only [cleanAmountText, sepStage] at h
  split at h
  · split at h
    · exact mem_of_mem_stripCurrency
        (mem_of_mem_strRemoveAll (mem_of_mem_replaceFirstChar (by decide) h))
    · exact mem_of_mem_stripCurrency (mem_of_mem_strRemoveAll h)
  · split at h
    · split at h
      · exact mem_of_mem_stripCurrency (mem_of_mem_replaceFirstChar (by decide) h)
      · exact mem_of_mem_stripCurrency (mem_of_mem_strRemoveAll h)
    · split at h
      · split at h
        · exact mem_of_mem_stripCurrency h
        · exact mem_of_mem_stripCurrency (mem_of_mem_strRemoveAll h)
      · exact mem_of_mem_stripCurrency h

/-- C2 counterexample: the text amount `"10-50"` parses (pre-absolute
value) to the positive 10, yet the row is classified INCOME because the
classifier tests for the character `'-'` anywhere in the raw text, not for
the parsed sign; the claim requires EXPENSE for a positive amount. -/
theorem c2_counterexample :
    (normalizeRowClient 0 noGenParse (.text "31/01/2026") (.text "x")
        (.text "10-50")).map (·.kind) = some Kind.INCOME ∧
    parseAmountSigned "10-50" = some (mkRat 10 1) ∧
    ratIsNeg (mkRat 10 1) = false := by
  decide

/-- C2 (amended): a numeric amount cell is classified INCOME exactly when
it is negative; a text amount cell whose parse is negative is always
INCOME (the minus that made it negative is detected), but the test is the
presence of the character `'-'` anywhere in the raw text, so a text cell
parsing to a positive amount is still INCOME when it contains `'-'`
(e.g. "10-50") and EXPENSE only when it does not. -/
theorem c2_kind_classification :
    (∀ q : ℚ, classifyKind (.num q) = (if ratIsNeg q then Kind.INCOME else Kind.EXPENSE)) ∧
    (∀ (s : String) (v : ℚ), parseAmountSigned s = some v → ratIsNeg v = true →
      classifyKind (.text s) = Kind.INCOME) ∧
    (∀ s : String, jsIncludes s "-" = true → classifyKind (.text s) = Kind.INCOME) ∧
    (∀ s : String, jsIncludes s "-" = false → classifyKind (.text s) = Kind.EXPENSE) := by
  refine ⟨fun q => rfl, ?_, ?_, ?_⟩
  · intro s v h hneg
    have hdash : '-' ∈ s.toList :=
      dash_mem_of_cleanAmount (jsParseFloat_neg_mem _ v h hneg)
    simp [classifyKind, (jsIncludes_dash s).mpr hdash]
  · intro s h
    simp [classifyKind, h]
  · intro s h
    simp [classifyKind, h]

/-- C2 witness: `"-10,50"` parses to -10.5 and is classified INCOME. -/
theorem c2_kind_classification_witness :
    classifyKind (.text "-10,50") = Kind.INCOME :=
  c2_kind_classification.2.1 "-10,50" (mkRat (-21) 2) (by decide) (by decide)

/-! ## Claim C1 — row accounting of a commit -/

/-- For duplicate-free lists, the two ways of counting the common elements
agree: as many elements of `A` lie in `B` as elements of `B` lie in `A`. -/
theorem length_filter_mem_comm {α : Type} [DecidableEq α] (A B : List α)
    (hA : A.Nodup) (hB : B.Nodup) :
    (A.filter (fun x => decide (x ∈ B))).length =
      (B.filter (fun x => decide (x ∈ A))).length := by
  have h1 : ∀ (L M : List α), L.Nodup →
      (L.filter (fun x => decide (x ∈ M))).length = (L.toFinset ∩ M.toFinset).card := by
    intro L M hL
    rw [← List.toFinset_card_of_nodup (hL.filter _), List.toFinset_filter]
    congr 1
    rw [← Finset.filter_mem_eq_inter]
    apply Finset.filter_congr
    intro x _
    simp
  rw [h1 A B hA, h1 B A hB, Finset.inter_comm]

/-- C1 (amended): when the owner's stored fingerprints are pairwise
distinct and the normalized batch's fingerprints are pairwise distinct,
`imported + skipped + droppedRowCount = N` for a file of `N` parsed data
rows.  Without those distinctness conditions the identity fails: `skipped`
counts matching stored rows while the filter removes matching batch rows,
and the two counts differ as soon as a fingerprint occurs twice in the
batch or in the store. -/
theorem c1_row_accounting (tz : Int) (genParse : String → Option Int)
    (store : List StoredTx) (rows : List RawRow)
    (hs : (storeFps store).Nodup)
    (hb : (batchFps ((normalizeRows tz genParse rows).map txToBatch)).Nodup) :
    (runImport tz genParse store rows).imported +
      (runImport tz genParse store rows).skipped +
      droppedRowCount tz genParse rows = rows.length := by
  have hfilter : newTxsOf store ((normalizeRows tz genParse rows).map txToBatch) =
      ((normalizeRows tz genParse rows).map txToBatch).filter
        (fun tx => !decide (fpOf tx ∈ storeFps store)) := by
    unfold newTxsOf
    apply List.filter_congr
    intro tx htx
    have hmemB : fpOf tx ∈ batchFps ((normalizeRows tz genParse rows).map txToBatch) :=
      List.mem_map_of_mem fpOf htx
    by_cases hin : fpOf tx ∈ storeFps store
    · have hdup : fpOf tx ∈ findDuplicateTransactions store
          (batchFps ((normalizeRows tz genParse rows).map txToBatch)) :=
        List.mem_filter.mpr ⟨hin, decide_eq_true hmemB⟩
      simp [hdup, hin]
    · have hnodup : fpOf tx ∉ findDuplicateTransactions store
          (batchFps ((normalizeRows tz genParse rows).map txToBatch)) := by
        intro hc
        exact hin (List.mem_filter.mp hc).1
      simp [hnodup, hin]
  have hskip : (findDuplicateTransactions store
        (batchFps ((normalizeRows tz genParse rows).map txToBatch))).length =
      (((normalizeRows tz genParse rows).map txToBatch).filter
        (fun tx => decide (fpOf tx ∈ storeFps store))).length := by
    unfold findDuplicateTransactions
    rw [length_filter_mem_comm _ _ hs hb]
    unfold batchFps
    rw [List.filter_map, List.length_map]
    rfl
  have hsum : (newTxsOf store ((normalizeRows tz genParse rows).map txToBatch)).length +
      (findDuplicateTransactions store
        (batchFps ((normalizeRows tz genParse rows).map txToBatch))).length =
      ((normalizeRows tz genParse rows).map txToBatch).length := by
    rw [hfilter, hskip]
    have hpart := List.length_eq_length_filter_add
      (l := (normalizeRows tz genParse rows).map txToBatch)
      (fun tx => decide (fpOf tx ∈ storeFps store))
    omega
  have h1 : (runImport tz genParse store rows).imported =
      (newTxsOf store ((normalizeRows tz genParse rows).map txToBatch)).length := rfl
  have h2 : (runImport tz genParse store rows).skipped =
      (findDuplicateTransactions store
        (batchFps ((normalizeRows tz genParse rows).map txToBatch))).length := rfl
  have hlen : ((normalizeRows tz genParse rows).map txToBatch).length =
      (normalizeRows tz genParse rows).length := List.length_map _ _
  have hle : (normalizeRows tz genParse rows).length ≤ rows.length :=
    List.length_filterMap_le _ _
  rw [h1, h2]
  unfold droppedRowCount
  omega

/-- C1 witness: one parsed row against an empty store gives
`1 + 0 + 0 = 1`. -/
theorem c1_row_accounting_witness :
    (storeFps ([] : List StoredTx)).Nodup ∧
    (batchFps ((normalizeRows 0 noGenParse
      [(Cell.text "31/01/2026", Cell.text "a", Cell.num (mkRat (-10) 1))]).map txToBatch)).Nodup ∧
    (runImport 0 noGenParse []
        [(Cell.text "31/01/2026", Cell.text "a", Cell.num (mkRat (-10) 1))]).imported +
      (runImport 0 noGenParse []
        [(Cell.text "31/01/2026", Cell.text "a", Cell.num (mkRat (-10) 1))]).skipped +
      droppedRowCount 0 noGenParse
        [(Cell.text "31/01/2026", Cell.text "a", Cell.num (mkRat (-10) 1))] = 1 :=
  ⟨by decide, by decide,
   c1_row_accounting 0 noGenParse []
     [(Cell.text "31/01/2026", Cell.text "a", Cell.num (mkRat (-10) 1))]
     (by decide) (by decide)⟩

/-! ## Claim C3 — amount separator disambiguation

The claim's rule is formalized as a second definition written from the
spec's words (`claimAmountValue`) and compared with the code's
`sepStage`/`cleanAmountText` on well-formed amount strings. -/

/-- The characters after the first occurrence of `sep`. -/
def tailAfterFirst (sep : Char) : List Char → List Char
  | [] => []
  | x :: xs => if x == sep then xs else tailAfterFirst sep xs

/-- The claim's "1–2 digits follow it": the text after the separator is
one or two digit characters. -/
def specDecimalTail (l : List Char) : Bool :=
  decide (1 ≤ l.length) && decide (l.length ≤ 2) && l.all Char.isDigit

/-- Modelled from the spec: a single separator type "is treated as decimal
exactly when 1–2 digits follow it and otherwise stripped as a thousands
separator" — decimal treatment needs the (then unique) separator followed
by 1–2 digits, and turns it into `.`; otherwise every occurrence is
stripped. -/
def claimOneSep (sep : Char) (t : String) : Option ℚ :=
  if countChar sep t = 1 ∧ specDecimalTail (tailAfterFirst sep t.toList) = true then
    (jsParseFloat (strReplaceAllChar sep '.' t)).map ratAbs
  else
    (jsParseFloat (strRemoveAll sep t)).map ratAbs

/-- Modelled from the spec (second definition for the refinement
comparison; it follows the claim's words, not the code): after currency
stripping, if both `,` and `.` appear, the separator occurring later is
the decimal separator and the other is stripped; with one separator type
the 1–2-digit rule decides; the absolute value of the parse is the
amount. -/
def claimAmountValue (t : String) : Option ℚ :=
  if (jsIncludes t "," && jsIncludes t ".") = true then
    if lastIndexOfChar '.' t < lastIndexOfChar ',' t then
      (jsParseFloat (strReplaceAllChar ',' '.' (strRemoveAll '.' t))).map ratAbs
    else
      (jsParseFloat (strRemoveAll ',' t)).map ratAbs
  else if jsIncludes t "," = true then claimOneSep ',' t
  else if jsIncludes t "." = true then claimOneSep '.' t
  else (jsParseFloat t).map ratAbs

theorem jsIncludes_comma (s : String) : jsIncludes s "," = true ↔ ',' ∈ s.toList :=
  charsContain_singleton ',' s.toList

theorem jsIncludes_dot (s : String) : jsIncludes s "." = true ↔ '.' ∈ s.toList :=
  charsContain_singleton '.' s.toList

theorem takeWhile_all {α : Type} {p : α → Bool} :
    ∀ {l : List α}, (∀ c ∈ l, p c = true) → l.takeWhile p = l
  | [], _ => rfl
  | x :: xs, h => by
    rw [List.takeWhile_cons, if_pos (h x (by simp))]
    rw [takeWhile_all (fun c hc => h c (by simp [hc]))]

theorem takeWhile_append_all {α : Type} {p : α → Bool} :
    ∀ (ds rest : List α), (∀ c ∈ ds, p c = true) →
      (ds ++ rest).takeWhile p = ds ++ rest.takeWhile p
  | [], _, _ => rfl
  | x :: xs, rest, h => by
    rw [List.cons_append, List.takeWhile_cons, if_pos (h x (by simp)),
      takeWhile_append_all xs rest (fun c hc => h c (by simp [hc])), List.cons_append]

theorem dropWhile_all_false {α : Type} {p : α → Bool} :
    ∀ {l : List α}, (∀ c ∈ l, p c = false) → l.dropWhile p = l
  | [], _ => rfl
  | x :: xs, h => by
    rw [List.dropWhile_cons, h x (by simp)]
    simp

theorem digit_not_ws {c : Char} (h : c.isDigit = true) : jsWs c = false := by
  cases hw : jsWs c with
  | false => rfl
  | true =>
    exfalso
    simp only [jsWs, Char.isWhitespace, Bool.or_eq_true, decide_eq_true_eq] at hw
    rcases hw with ((rfl | rfl) | rfl) | rfl <;> exact absurd h (by decide)

theorem signSplit_eq_of_no_sign :
    ∀ (l : List Char), (∀ c ∈ l, c ≠ '-' ∧ c ≠ '+') → signSplit l = (1, l) := by
  intro l h
  unfold signSplit
  split
  · exact absurd rfl (h '-' (by simp)).1
  · exact absurd rfl (h '+' (by simp)).2
  · rfl

theorem parseBody_append_dot (ds : List Char) (hds : ∀ c ∈ ds, c.isDigit = true)
    (sign : Int) : parseBody sign (ds ++ ['.']) = parseBody sign ds := by
  have ht1 : (ds ++ ['.']).takeWhile Char.isDigit = ds := by
    rw [takeWhile_append_all ds ['.'] hds,
      show List.takeWhile Char.isDigit ['.'] = [] from by decide, List.append_nil]
  have ht2 : ds.takeWhile Char.isDigit = ds := takeWhile_all hds
  simp only [parseBody, ht1, ht2, List.drop_left, List.drop_length]
  rfl

theorem jsParseFloat_trailing_dot (ds : List Char) (hds : ∀ c ∈ ds, c.isDigit = true) :
    jsParseFloat (String.mk (ds ++ ['.'])) = jsParseFloat (String.mk ds) := by
  have hws1 : ∀ c ∈ ds ++ ['.'], jsWs c = false := by
    intro c hc
    rcases List.mem_append.mp hc with hc | hc
    · exact digit_not_ws (hds c hc)
    · have : c = '.' := List.mem_singleton.mp hc
      subst this
      decide
  have hws2 : ∀ c ∈ ds, jsWs c = false := fun c hc => digit_not_ws (hds c hc)
  have hns1 : ∀ c ∈ ds ++ ['.'], c ≠ '-' ∧ c ≠ '+' := by
    intro c hc
    rcases List.mem_append.mp hc with hc | hc
    · have hdg := hds c hc
      exact ⟨fun e => absurd hdg (by rw [e]; decide),
        fun e => absurd hdg (by rw [e]; decide)⟩
    · have : c = '.' := List.mem_singleton.mp hc
      subst this
      exact ⟨by decide, by decide⟩
  have hns2 : ∀ c ∈ ds, c ≠ '-' ∧ c ≠ '+' := by
    intro c hc
    have hdg := hds c hc
    exact ⟨fun e => absurd hdg (by rw [e]; decide),
      fun e => absurd hdg (by rw [e]; decide)⟩
  simp only [jsParseFloat,
    show (String.mk (ds ++ ['.'])).toList = ds ++ ['.'] from rfl,
    show (String.mk ds).toList = ds from rfl,
    dropWhile_all_false hws1, dropWhile_all_false hws2,
    signSplit_eq_of_no_sign _ hns1, signSplit_eq_of_no_sign _ hns2]
  exact parseBody_append_dot ds hds 1

theorem splitCharList_ne_nil (c : Char) : ∀ l : List Char, splitCharList c l ≠ []
  | [] => by simp [splitCharList]
  | x :: xs => by
    unfold splitCharList
    by_cases hx : (x == c) = true
    · simp [hx]
    · rw [Bool.not_eq_true] at hx
      cases hrec : splitCharList c xs with
      | nil => simp [hx]
      | cons h t => simp [hx, hrec]

theorem splitCharList_length (c : Char) :
    ∀ l : List Char, (splitCharList c l).length = l.count c + 1
  | [] => by simp [splitCharList]
  | x :: xs => by
    unfold splitCharList
    by_cases hx : (x == c) = true
    · simp [hx, splitCharList_length c xs, List.count_cons]
    · rw [Bool.not_eq_true] at hx
      cases hrec : splitCharList c xs with
      | nil => exact absurd hrec (splitCharList_ne_nil c xs)
      | cons h t =>
        have ih := splitCharList_length c xs
        rw [hrec] at ih
        simp only [List.length_cons] at ih
        simp [hx, hrec, List.count_cons]
        omega

theorem count_one_split {c : Char} :
    ∀ {l : List Char}, l.count c = 1 → ∃ l₁ l₂, l = l₁ ++ c :: l₂ ∧ c ∉ l₁ ∧ c ∉ l₂ := by
  intro l
  induction l with
  | nil => intro h; simp at h
  | cons x xs ih =>
    intro h
    by_cases hx : x = c
    · subst hx
      rw [List.count_cons_self] at h
      have h0 : xs.count x = 0 := by omega
      exact ⟨[], xs, rfl, by simp, List.count_eq_zero.mp h0⟩
    · rw [List.count_cons_of_ne (fun e => hx e.symm) xs] at h
      obtain ⟨l₁, l₂, heq, h1, h2⟩ := ih h
      refine ⟨x :: l₁, l₂, by simp [heq], ?_, h2⟩
      intro hm
      rcases List.mem_cons.mp hm with he | hm'
      · exact hx he.symm
      · exact h1 hm'

theorem splitCharList_of_not_mem {c : Char} :
    ∀ {l : List Char}, c ∉ l → splitCharList c l = [l]
  | [], _ => rfl
  | x :: xs, h => by
    have hx : (x == c) = false := by
      simp only [beq_eq_false_iff_ne]
      exact fun e => h (by simp [e])
    unfold splitCharList
    rw [splitCharList_of_not_mem (fun hm => h (List.mem_cons_of_mem x hm))]
    simp [hx]

theorem splitCharList_append {c : Char} :
    ∀ {l₁ l₂ : List Char}, c ∉ l₁ → c ∉ l₂ →
      splitCharList c (l₁ ++ c :: l₂) = [l₁, l₂] := by
  intro l₁
  induction l₁ with
  | nil =>
    intro l₂ _ h2
    simp only [List.nil_append]
    unfold splitCharList
    rw [splitCharList_of_not_mem h2]
    simp
  | cons x xs ih =>
    intro l₂ h1 h2
    have hx : (x == c) = false := by
      simp only [beq_eq_false_iff_ne]
      exact fun e => h1 (by simp [e])
    simp only [List.cons_append]
    unfold splitCharList
    rw [ih (fun hm => h1 (List.mem_cons_of_mem x hm)) h2]
    simp [hx]

theorem tailAfterFirst_append {c : Char} :
    ∀ {l₁ l₂ : List Char}, c ∉ l₁ → tailAfterFirst c (l₁ ++ c :: l₂) = l₂
  | [], l₂, _ => by simp [tailAfterFirst]
  | x :: xs, l₂, h => by
    have hx : (x == c) = false := by
      simp only [beq_eq_false_iff_ne]
      exact fun e => h (by simp [e])
    simp only [List.cons_append, tailAfterFirst, hx]
    exact tailAfterFirst_append (fun hm => h (List.mem_cons_of_mem x hm))

theorem replaceFirstChar_append {c r : Char} :
    ∀ {l₁ l₂ : List Char}, c ∉ l₁ →
      replaceFirstChar c r (l₁ ++ c :: l₂) = l₁ ++ r :: l₂
  | [], l₂, _ => by simp [replaceFirstChar]
  | x :: xs, l₂, h => by
    have hx : (x == c) = false := by
      simp only [beq_eq_false_iff_ne]
      exact fun e => h (by simp [e])
    rw [List.cons_append]
    show (if (x == c) = true then r :: (xs ++ c :: l₂)
        else x :: replaceFirstChar c r (xs ++ c :: l₂)) = x :: (xs ++ r :: l₂)
    simp only [hx, Bool.false_eq_true, if_false]
    rw [replaceFirstChar_append (fun hm => h (List.mem_cons_of_mem x hm))]

theorem filter_ne_append {c : Char} {l₁ l₂ : List Char} (h1 : c ∉ l₁) (h2 : c ∉ l₂) :
    (l₁ ++ c :: l₂).filter (fun x => x != c) = l₁ ++ l₂ := by
  rw [List.filter_append, List.filter_cons]
  have hcc : (c != c) = false := by simp
  rw [hcc]
  simp only [Bool.false_eq_true, if_false]
  congr 1
  · exact List.filter_eq_self.mpr (fun a ha => by
      simp only [bne_iff_ne, ne_eq, decide_eq_true_eq]
      exact fun e => h1 (e ▸ ha))
  · exact List.filter_eq_self.mpr (fun a ha => by
      simp only [bne_iff_ne, ne_eq, decide_eq_true_eq]
      exact fun e => h2 (e ▸ ha))

theorem mapSubst_append {c r : Char} {l₁ l₂ : List Char} (h1 : c ∉ l₁) (h2 : c ∉ l₂) :
    (l₁ ++ c :: l₂).map (fun x => if x == c then r else x) = l₁ ++ r :: l₂ := by
  rw [List.map_append, List.map_cons]
  have hid : ∀ (l : List Char), c ∉ l →
      l.map (fun x => if x == c then r else x) = l := by
    intro l hl
    have := List.map_congr_left (f := fun x => if x == c then r else x) (g := id)
      (l := l) (fun a ha => by
        have : (a == c) = false := by
          simp only [beq_eq_false_iff_ne]
          exact fun e => hl (e ▸ ha)
        simp [this])
    rw [this, List.map_id]
  rw [hid l₁ h1, hid l₂ h2]
  simp

theorem strReplaceAllChar_self (c : Char) (s : String) : strReplaceAllChar c c s = s := by
  unfold strReplaceAllChar
  have : s.toList.map (fun x => if x == c then c else x) = s.toList := by
    have := List.map_congr_left (f := fun x => if x == c then c else x) (g := id)
      (l := s.toList) (fun a _ => by
        by_cases h : (a == c) = true
        · simp [h, beq_iff_eq.mp h]
        · simp [h])
    rw [this, List.map_id]
  rw [this]
  rfl

theorem comma_count_removeAll_dot (t : String) :
    (strRemoveAll '.' t).toList.count ',' = t.toList.count ',' := by
  show (t.toList.filter (fun x => x != '.')).count ',' = t.toList.count ','
  exact List.count_filter (by decide)

theorem sepStage_eq_claim (t : String)
    (hall : ∀ c ∈ t.toList, c.isDigit = true ∨ c = ',' ∨ c = '.')
    (hlater : jsIncludes t "," = true → jsIncludes t "." = true →
      (if lastIndexOfChar '.' t < lastIndexOfChar ',' t then countChar ',' t
       else countChar '.' t) = 1) :
    (jsParseFloat (sepStage t)).map ratAbs = claimAmountValue t := by
  unfold sepStage claimAmountValue
  by_cases hc : jsIncludes t "," = true
  · by_cases hd : jsIncludes t "." = true
    · -- both separators present
      rw [hc, hd]
      simp only [Bool.and_self, eq_self_iff_true, if_true]
      by_cases hlt : lastIndexOfChar '.' t < lastIndexOfChar ',' t
      · rw [if_pos hlt, if_pos hlt]
        have h1 : countChar ',' t = 1 := by
          have h := hlater hc hd
          rw [if_pos hlt] at h
          exact h
        have h1' : (strRemoveAll '.' t).toList.count ',' = 1 := by
          rw [comma_count_removeAll_dot]
          exact h1
        obtain ⟨l₁, l₂, heq, hn1, hn2⟩ := count_one_split h1'
        have hrf : strReplaceFirst ',' '.' (strRemoveAll '.' t) =
            strReplaceAllChar ',' '.' (strRemoveAll '.' t) := by
          unfold strReplaceFirst strReplaceAllChar
          rw [show (strRemoveAll '.' t).toList = l₁ ++ ',' :: l₂ from heq,
            replaceFirstChar_append hn1, mapSubst_append hn1 hn2]
        rw [hrf]
      · rw [if_neg hlt, if_neg hlt]
    · -- comma only
      have hdf : jsIncludes t "." = false := by
        rw [Bool.not_eq_true] at hd
        exact hd
      rw [hc, hdf]
      simp only [Bool.and_false, Bool.false_eq_true, if_false, eq_self_iff_true, if_true]
      unfold claimOneSep
      have hdotmem : '.' ∉ t.toList := by
        intro hm
        have h2 := (jsIncludes_dot t).mpr hm
        rw [hdf] at h2
        cases h2
      by_cases h1 : countChar ',' t = 1
      · obtain ⟨l₁, l₂, heq, hn1, hn2⟩ := count_one_split (l := t.toList) h1
        have hsplit : strSplitChar ',' t = [String.mk l₁, String.mk l₂] := by
          unfold strSplitChar
          rw [show t.toList = l₁ ++ ',' :: l₂ from heq, splitCharList_append hn1 hn2]
          rfl
        have htail : tailAfterFirst ',' t.toList = l₂ := by
          rw [show t.toList = l₁ ++ ',' :: l₂ from heq]
          exact tailAfterFirst_append hn1
        have hsub1 : ∀ c ∈ l₁, c ∈ t.toList := by
          intro c hcm
          rw [heq]
          simp [hcm]
        have hsub2 : ∀ c ∈ l₂, c ∈ t.toList := by
          intro c hcm
          rw [heq]
          simp [hcm]
        have hl1d : ∀ c ∈ l₁, c.isDigit = true := by
          intro c hc2
          rcases hall c (hsub1 c hc2) with h | h | h
          · exact h
          · subst h; exact absurd hc2 hn1
          · subst h; exact absurd (hsub1 _ hc2) hdotmem
        have hl2d : ∀ c ∈ l₂, c.isDigit = true := by
          intro c hc2
          rcases hall c (hsub2 c hc2) with h | h | h
          · exact h
          · subst h; exact absurd hc2 hn2
          · subst h; exact absurd (hsub2 _ hc2) hdotmem
        rw [hsplit]
        by_cases hzero : l₂ = []
        · subst hzero
          rw [if_pos (by simp)]
          rw [if_neg (fun hcl => by
            rw [htail] at hcl
            simp [specDecimalTail] at hcl)]
          have hcode : strReplaceFirst ',' '.' t = String.mk (l₁ ++ ['.']) := by
            unfold strReplaceFirst
            rw [show t.toList = l₁ ++ ',' :: [] from heq, replaceFirstChar_append hn1]
          have hclaim : strRemoveAll ',' t = String.mk l₁ := by
            unfold strRemoveAll
            rw [show t.toList = l₁ ++ ',' :: [] from heq, filter_ne_append hn1 hn2,
              List.append_nil]
          rw [hcode, hclaim, jsParseFloat_trailing_dot l₁ hl1d]
        · by_cases hlen : l₂.length ≤ 2
          · rw [if_pos (by simp [hlen])]
            rw [if_pos ⟨h1, by
              rw [htail]
              simp only [specDecimalTail, Bool.and_eq_true, decide_eq_true_eq,
                List.all_eq_true]
              exact ⟨⟨Nat.one_le_iff_ne_zero.mpr
                (fun h0 => hzero (List.length_eq_zero.mp h0)), hlen⟩, hl2d⟩⟩]
            have hrf : strReplaceFirst ',' '.' t = strReplaceAllChar ',' '.' t := by
              unfold strReplaceFirst strReplaceAllChar
              rw [show t.toList = l₁ ++ ',' :: l₂ from heq,
                replaceFirstChar_append hn1, mapSubst_append hn1 hn2]
            rw [hrf]
          · rw [if_neg (by
              simp only [Bool.and_eq_true, decide_eq_true_eq]
              rintro ⟨-, h2⟩
              exact hlen (by simpa using h2))]
            rw [if_neg (fun hcl => by
              have h2 := hcl.2
              rw [htail] at h2
              simp only [specDecimalTail, Bool.and_eq_true, decide_eq_true_eq] at h2
              exact hlen h2.1.2)]
      · have hplen : (strSplitChar ',' t).length = countChar ',' t + 1 := by
          unfold strSplitChar countChar
          rw [List.length_map]
          exact splitCharList_length ',' t.toList
        rw [if_neg (by
          simp only [Bool.and_eq_true, decide_eq_true_eq]
          rintro ⟨h2, -⟩
          rw [hplen] at h2
          exact h1 (by omega))]
        rw [if_neg (fun hcl => h1 hcl.1)]
  · -- no comma
    have hcf : jsIncludes t "," = false := by
      rw [Bool.not_eq_true] at hc
      exact hc
    by_cases hd : jsIncludes t "." = true
    · -- dot only
      rw [hcf, hd]
      simp only [Bool.false_and, Bool.false_eq_true, if_false, eq_self_iff_true, if_true]
      unfold claimOneSep
      have hcommamem : ',' ∉ t.toList := by
        intro hm
        have h2 := (jsIncludes_comma t).mpr hm
        rw [hcf] at h2
        cases h2
      by_cases h1 : countChar '.' t = 1
      · obtain ⟨l₁, l₂, heq, hn1, hn2⟩ := count_one_split (l := t.toList) h1
        have hsplit : strSplitChar '.' t = [String.mk l₁, String.mk l₂] := by
          unfold strSplitChar
          rw [show t.toList = l₁ ++ '.' :: l₂ from heq, splitCharList_append hn1 hn2]
          rfl
        have htail : tailAfterFirst '.' t.toList = l₂ := by
          rw [show t.toList = l₁ ++ '.' :: l₂ from heq]
          exact tailAfterFirst_append hn1
        have hsub1 : ∀ c ∈ l₁, c ∈ t.toList := by
          intro c hcm
          rw [heq]
          simp [hcm]
        have hsub2 : ∀ c ∈ l₂, c ∈ t.toList := by
          intro c hcm
          rw [heq]
          simp [hcm]
        have hl1d : ∀ c ∈ l₁, c.isDigit = true := by
          intro c hc2
          rcases hall c (hsub1 c hc2) with h | h | h
          · exact h
          · subst h; exact absurd (hsub1 _ hc2) hcommamem
          · subst h; exact absurd hc2 hn1
        have hl2d : ∀ c ∈ l₂, c.isDigit = true := by
          intro c hc2
          rcases hall c (hsub2 c hc2) with h | h | h
          · exact h
          · subst h; exact absurd (hsub2 _ hc2) hcommamem
          · subst h; exact absurd hc2 hn2
        rw [hsplit]
        by_cases hzero : l₂ = []
        · subst hzero
          rw [if_pos (by simp)]
          rw [if_neg (fun hcl => by
            rw [htail] at hcl
            simp [specDecimalTail] at hcl)]
          have hcode : t = String.mk (l₁ ++ ['.']) := by
            rw [show t = String.mk t.toList from rfl, heq]
          have hclaim : strRemoveAll '.' t = String.mk l₁ := by
            unfold strRemoveAll
            rw [show t.toList = l₁ ++ '.' :: [] from heq, filter_ne_append hn1 hn2,
              List.append_nil]
          rw [hclaim, show jsParseFloat t = jsParseFloat (String.mk (l₁ ++ ['.'])) from by
            rw [← hcode]]
          rw [jsParseFloat_trailing_dot l₁ hl1d]
        · by_cases hlen : l₂.length ≤ 2
          · rw [if_pos (by simp [hlen])]
            rw [if_pos ⟨h1, by
              rw [htail]
              simp only [specDecimalTail, Bool.and_eq_true, decide_eq_true_eq,
                List.all_eq_true]
              exact ⟨⟨Nat.one_le_iff_ne_zero.mpr
                (fun h0 => hzero (List.length_eq_zero.mp h0)), hlen⟩, hl2d⟩⟩]
            rw [strReplaceAllChar_self]
          · rw [if_neg (by
              simp only [Bool.and_eq_true, decide_eq_true_eq]
              rintro ⟨-, h2⟩
              exact hlen (by simpa using h2))]
            rw [if_neg (fun hcl => by
              have h2 := hcl.2
              rw [htail] at h2
              simp only [specDecimalTail, Bool.and_eq_true, decide_eq_true_eq] at h2
              exact hlen h2.1.2)]
      · have hplen : (strSplitChar '.' t).length = countChar '.' t + 1 := by
          unfold strSplitChar countChar
          rw [List.length_map]
          exact splitCharList_length '.' t.toList
        rw [if_neg (by
          simp only [Bool.and_eq_true, decide_eq_true_eq]
          rintro ⟨h2, -⟩
          rw [hplen] at h2
          exact h1 (by omega))]
        rw [if_neg (fun hcl => h1 hcl.1)]
    · -- no separators
      have hdf : jsIncludes t "." = false := by
        rw [Bool.not_eq_true] at hd
        exact hd
      rw [hcf, hdf]
      simp only [Bool.false_and, Bool.false_eq_true, if_false]



/-- C3: the separator-disambiguation rule of the amount parser, compared
with the rule exactly as the claim words it (`claimAmountValue`), agrees
on every well-formed amount text — one whose stripped form consists of
digits and separators with the decimal separator occurring once — and the
four example amounts parse as the claim says: "1.234,56" and "1,234.56" to
1234.56, "10,50" to 10.50, and "1.234" to 1234. -/
theorem c3_amount_separator_rules :
    (∀ s : String,
      (∀ c ∈ (stripCurrency s).toList, c.isDigit = true ∨ c = ',' ∨ c = '.') →
      (jsIncludes (stripCurrency s) "," = true → jsIncludes (stripCurrency s) "." = true →
        (if lastIndexOfChar '.' (stripCurrency s) < lastIndexOfChar ',' (stripCurrency s)
         then countChar ',' (stripCurrency s) else countChar '.' (stripCurrency s)) = 1) →
      amountOfCell (.text s) = claimAmountValue (stripCurrency s)) ∧
    amountOfCell (.text "1.234,56") = some (mkRat 123456 100) ∧
    amountOfCell (.text "1,234.56") = some (mkRat 123456 100) ∧
    amountOfCell (.text "10,50") = some (mkRat 1050 100) ∧
    amountOfCell (.text "1.234") = some (mkRat 1234 1) := by
  refine ⟨?_, by decide, by decide, by decide, by decide⟩
  intro s hall hlater
  show (parseAmountSigned s).map ratAbs = _
  unfold parseAmountSigned cleanAmountText
  exact sepStage_eq_claim (stripCurrency s) hall hlater

/-- C3 witness: the Brazilian-format example. -/
theorem c3_amount_separator_rules_witness :
    amountOfCell (.text "1.234,56") = claimAmountValue (stripCurrency "1.234,56") :=
  c3_amount_separator_rules.1 "1.234,56" (by decide) (by decide)


/-- C1 counterexample: a file holding the same parseable row twice,
committed against a store that already holds that row's fingerprint once
(from a previous one-row import of the same row): both copies are
filtered out but only one stored row matches, so
`imported + skipped + dropped = 0 + 1 + 0 = 1 ≠ 2 = N`. -/
theorem c1_counterexample :
    (runImport 0 noGenParse
        ((normalizeRows 0 noGenParse
          [(Cell.text "31/01/2026", Cell.text "a", Cell.num (mkRat (-10) 1))]).map
            (fun t => toStored (txToBatch t) t.externalId))
        [(Cell.text "31/01/2026", Cell.text "a", Cell.num (mkRat (-10) 1)),
         (Cell.text "31/01/2026", Cell.text "a", Cell.num (mkRat (-10) 1))]).imported +
      (runImport 0 noGenParse
        ((normalizeRows 0 noGenParse
          [(Cell.text "31/01/2026", Cell.text "a", Cell.num (mkRat (-10) 1))]).map
            (fun t => toStored (txToBatch t) t.externalId))
        [(Cell.text "31/01/2026", Cell.text "a", Cell.num (mkRat (-10) 1)),
         (Cell.text "31/01/2026", Cell.text "a", Cell.num (mkRat (-10) 1))]).skipped +
      droppedRowCount 0 noGenParse
        [(Cell.text "31/01/2026", Cell.text "a", Cell.num (mkRat (-10) 1)),
         (Cell.text "31/01/2026", Cell.text "a", Cell.num (mkRat (-10) 1))] ≠ 2 := by
  decide

end ImportPipeline
